import Mathlib

/-!
Shallow embedding of the particle-file binary decoder and the spectrum
decomposition routines of `particle_distribution.py` and
`spectrum_fitting.py`, together with theorems settling the specification
claims about them.

Files are modelled as lists of bytes (`List ℕ`, each entry < 256), numpy
arrays of floats as lists of `ℚ` (exact values; every IEEE float is a
rational) or `ℝ` where the code applies transcendental functions
(`math.log10`, `math.sqrt`, `np.exp`).  External library routines
(`scipy.optimize.curve_fit`) are abstracted as total oracle parameters:
the claims under study concern the data handed to the fitter and the
shape of the result, never the optimizer's numerics.
-/

set_option maxRecDepth 8192

namespace EnergyConversionPIC

/-! ## Binary particle-file decoder (`particle_distribution.py`)

`read_boilerplate` consumes 5 + 2 + 4 + 4 + 8 = 23 bytes (a 5-byte marker,
an int16, an int32, a float32 and a float64).  `read_particle_header`
then walks: 6 int32 (`tmp1`), 10 float32 (`tmp2`), 4 int32 (`tmp3`)
making up the v0 header, then 3 int32 (`tmp4` = the particle sub-header
`size`, `ndim`, `dim`), accumulating the running byte offset it finally
returns.  `read_particle_data` seeks to that returned offset and reads
`pheader.dim` records of the 32-byte particle dtype
(3 float32 + int32 + 3 float32 + float32). -/

/-- Size of the boilerplate consumed by `read_boilerplate`:
a 5-byte marker array, an int16, an int32, a float32 and a float64. -/
def boilerplate_size : ℕ := 5 + 2 + 4 + 4 + 8

/-- Byte offset of the particle sub-header `tmp4` (`size`, `ndim`, `dim`)
inside a particle file: the boilerplate, then 6 int32, 10 float32 and
4 int32 of the v0 header. -/
def particle_subheader_offset : ℕ := boilerplate_size + 6 * 4 + 10 * 4 + 4 * 4

/-- The offset value returned by `read_particle_header`, reached after
additionally consuming the 3 int32 of the particle sub-header.
`read_particle_data` passes exactly this value to `fh.seek`. -/
def read_particle_header_offset : ℕ := particle_subheader_offset + 3 * 4

/-- Decode a little-endian 32-bit integer from four bytes of the file
(missing bytes read as 0).  The fields decoded this way here are
non-negative counts below 2^31, where the two's-complement and unsigned
readings agree. -/
def int32le (file : List ℕ) (off : ℕ) : ℕ :=
  file.getD off 0 + 2 ^ 8 * file.getD (off + 1) 0 +
    2 ^ 16 * file.getD (off + 2) 0 + 2 ^ 24 * file.getD (off + 3) 0

/-- The `dim` field of the particle sub-header (`tmp4[2]`): the third
int32 starting at `particle_subheader_offset`, i.e. the number of
particle records in the file. -/
def pheader_dim (file : List ℕ) : ℕ :=
  int32le file (particle_subheader_offset + 2 * 4)

/-- Byte size of one particle record: the numpy dtype
`[(dxyz, f4, 3), (icell, i4), (u, f4, 3), (q, f4)]`. -/
def particle_record_size : ℕ := 3 * 4 + 4 + 3 * 4 + 4

/-- The bytes of the particle-record array returned by
`read_particle_data`: seek to the offset returned by
`read_particle_header`, then read `pheader.dim` records of 32 bytes
(`np.fromfile` with an explicit `count` never reads past them). -/
def read_particle_data (file : List ℕ) : List ℕ :=
  (file.drop read_particle_header_offset).take
    (particle_record_size * pheader_dim file)

/-- A concrete particle file used to witness the decoder theorems:
115 header bytes whose sub-header `dim` field (bytes 111..114) encodes 1,
followed by a single 32-byte record of bytes `7`. -/
def sample_particle_file : List ℕ :=
  List.replicate 111 0 ++ [1, 0, 0, 0] ++ List.replicate 32 7

end EnergyConversionPIC

namespace EnergyConversionPIC

/-- C1 counterexample: the offset `read_particle_data` seeks to before
reading the particle-record array — the value returned by
`read_particle_header` — is 115 bytes (23 boilerplate + 80 v0 header +
12 particle sub-header), not 103 as the claim states. -/
theorem read_particle_header_offset_ne_103 :
    read_particle_header_offset = 115 ∧ read_particle_header_offset ≠ 103 := by
  constructor <;> decide

/-- C1 (amended): `read_particle_data` seeks to byte offset 115
(boilerplate 23, plus 80 bytes of v0 header, plus 12 bytes of particle
sub-header) and from there reads exactly `pheader.dim` contiguous
32-byte records; any trailing bytes after those records are ignored
(appending extra bytes to the file leaves the result unchanged). -/
theorem read_particle_data_reads_dim_records (file extra : List ℕ)
    (h : read_particle_header_offset + particle_record_size * pheader_dim file ≤
      file.length) :
    read_particle_header_offset = boilerplate_size + 20 * 4 + 3 * 4 ∧
    read_particle_header_offset = 115 ∧
    (read_particle_data file).length = particle_record_size * pheader_dim file ∧
    read_particle_data (file ++ extra) = read_particle_data file := by
  have hoff : read_particle_header_offset = 115 := by decide
  have hsub : particle_subheader_offset + 2 * 4 + 3 < file.length := by
    have : particle_subheader_offset + 2 * 4 + 3 < read_particle_header_offset := by
      decide
    omega
  refine ⟨by decide, hoff, ?_, ?_⟩
  · rw [read_particle_data, List.length_take, List.length_drop]
    omega
  · have hdim : pheader_dim (file ++ extra) = pheader_dim file := by
      unfold pheader_dim int32le
      rw [List.getD_append, List.getD_append, List.getD_append, List.getD_append]
      all_goals omega
    rw [read_particle_data, read_particle_data, hdim]
    rw [List.drop_append_of_le_length (by omega)]
    rw [List.take_append_of_le_length]
    rw [List.length_drop]
    omega

/-- C1 witness: the amended theorem applied to the concrete 147-byte
sample file (115 header bytes with `dim = 1`, one 32-byte record). -/
theorem read_particle_data_reads_dim_records_witness :
    (read_particle_header_offset +
        particle_record_size * pheader_dim sample_particle_file ≤
      sample_particle_file.length) ∧
    ((read_particle_data sample_particle_file).length =
        particle_record_size * pheader_dim sample_particle_file ∧
      read_particle_data (sample_particle_file ++ [9, 9, 9]) =
        read_particle_data sample_particle_file) := by
  refine ⟨by decide, ?_, ?_⟩
  · exact (read_particle_data_reads_dim_records sample_particle_file [9, 9, 9]
      (by decide)).2.2.1
  · exact (read_particle_data_reads_dim_records sample_particle_file [9, 9, 9]
      (by decide)).2.2.2

end EnergyConversionPIC

namespace EnergyConversionPIC

/-! ## Spectrum decomposition: `accumulated_particle_info` (`spectrum_fitting.py`)

`accumulated_particle_info(ene, f)` sets `nbins = len(f)`,
`dlogE = (log10(max(ene)) - log10(min(ene))) / nbins`, seeds
`nacc_ene[0] = f[0]*ene[0]` and `eacc_ene[0] = 0.5*f[0]*ene[0]**2`, runs
the recurrences
`nacc_ene[i] = f[i]*(ene[i]+ene[i-1])*0.5 + nacc_ene[i-1]` and
`eacc_ene[i] = 0.5*f[i]*(ene[i]-ene[i-1])*(ene[i]+ene[i-1]) + eacc_ene[i-1]`
for `i = 1 .. nbins-1`, and finally multiplies both arrays by `dlogE`. -/

/-- Python's `max` over a (nonempty) array, with 0 for the empty list the
source never feeds it. -/
noncomputable def listMax : List ℝ → ℝ
  | [] => 0
  | a :: l => l.foldl max a

/-- Python's `min` over a (nonempty) array, with 0 for the empty list the
source never feeds it. -/
noncomputable def listMin : List ℝ → ℝ
  | [] => 0
  | a :: l => l.foldl min a

/-- The running value of `nacc_ene[i]` before the final `dlogE` scaling:
seed `f[0]*ene[0]`, increment `f[i]*(ene[i]+ene[i-1])*0.5`. -/
noncomputable def nacc_unscaled (ene f : List ℝ) : ℕ → ℝ
  | 0 => f.getD 0 0 * ene.getD 0 0
  | i + 1 => f.getD (i + 1) 0 * (ene.getD (i + 1) 0 + ene.getD i 0) * 0.5 +
      nacc_unscaled ene f i

/-- The running value of `eacc_ene[i]` before the final `dlogE` scaling:
seed `0.5*f[0]*ene[0]**2`, increment
`0.5*f[i]*(ene[i]-ene[i-1])*(ene[i]+ene[i-1])`. -/
noncomputable def eacc_unscaled (ene f : List ℝ) : ℕ → ℝ
  | 0 => 0.5 * f.getD 0 0 * ene.getD 0 0 ^ 2
  | i + 1 => 0.5 * f.getD (i + 1) 0 * (ene.getD (i + 1) 0 - ene.getD i 0) *
      (ene.getD (i + 1) 0 + ene.getD i 0) + eacc_unscaled ene f i

/-- `dlogE = (log10(max(ene)) - log10(min(ene))) / nbins`
(`math.log10 = Real.logb 10`). -/
noncomputable def dlogE_of (ene : List ℝ) (nbins : ℕ) : ℝ :=
  (Real.logb 10 (listMax ene) - Real.logb 10 (listMin ene)) / nbins

/-- `accumulated_particle_info(ene, f)`: the accumulated particle number
and accumulated particle energy arrays, both of length `len(f)` and both
scaled by `dlogE` at the end. -/
noncomputable def accumulated_particle_info (ene f : List ℝ) : List ℝ × List ℝ :=
  let nbins := f.length
  let dlogE := dlogE_of ene nbins
  ((List.range nbins).map fun i => nacc_unscaled ene f i * dlogE,
   (List.range nbins).map fun i => eacc_unscaled ene f i * dlogE)

lemma getD_map_range {α : Type} [Inhabited α] (g : ℕ → α) (n i : ℕ) (h : i < n) :
    ((List.range n).map g).getD i default = g i := by
  rw [List.getD_eq_getElem?_getD, List.getElem?_map, List.getElem?_range h]
  rfl

lemma getD_map_range_real (g : ℕ → ℝ) (n i : ℕ) (h : i < n) :
    ((List.range n).map g).getD i 0 = g i := by
  have := getD_map_range g n i h
  simpa using this

lemma foldl_min_le_init (l : List ℝ) : ∀ a : ℝ, l.foldl min a ≤ a := by
  induction l with
  | nil => intro a; simp
  | cons b t ih =>
    intro a
    simpa using (ih (min a b)).trans (min_le_left a b)

lemma le_foldl_max_init (l : List ℝ) : ∀ a : ℝ, a ≤ l.foldl max a := by
  induction l with
  | nil => intro a; simp
  | cons b t ih =>
    intro a
    simpa using (le_max_left a b).trans (ih (max a b))

lemma foldl_min_mem (l : List ℝ) : ∀ a : ℝ, l.foldl min a = a ∨ l.foldl min a ∈ l := by
  induction l with
  | nil => intro a; simp
  | cons b t ih =>
    intro a
    simp only [List.foldl_cons]
    rcases ih (min a b) with h | h
    · rcases min_choice a b with h' | h'
      · exact Or.inl (h.trans h')
      · exact Or.inr (by rw [h, h']; exact List.mem_cons_self b t)
    · exact Or.inr (List.mem_cons_of_mem b h)

lemma foldl_max_mem (l : List ℝ) : ∀ a : ℝ, l.foldl max a = a ∨ l.foldl max a ∈ l := by
  induction l with
  | nil => intro a; simp
  | cons b t ih =>
    intro a
    simp only [List.foldl_cons]
    rcases ih (max a b) with h | h
    · rcases max_choice a b with h' | h'
      · exact Or.inl (h.trans h')
      · exact Or.inr (by rw [h, h']; exact List.mem_cons_self b t)
    · exact Or.inr (List.mem_cons_of_mem b h)

/-- The Python `min` of a nonempty list is one of its members. -/
lemma listMin_mem (a : ℝ) (l : List ℝ) : listMin (a :: l) ∈ a :: l := by
  rcases foldl_min_mem l a with h | h
  · rw [listMin, h]; exact List.mem_cons_self a l
  · rw [listMin]; exact List.mem_cons_of_mem a h

/-- The Python `max` of a nonempty list is one of its members. -/
lemma listMax_mem (a : ℝ) (l : List ℝ) : listMax (a :: l) ∈ a :: l := by
  rcases foldl_max_mem l a with h | h
  · rw [listMax, h]; exact List.mem_cons_self a l
  · rw [listMax]; exact List.mem_cons_of_mem a h

/-- The Python `min` of a nonempty list is at most its `max`. -/
lemma listMin_le_listMax (a : ℝ) (l : List ℝ) : listMin (a :: l) ≤ listMax (a :: l) :=
  le_trans (foldl_min_le_init l a) (le_foldl_max_init l a)

/-- `dlogE` is non-negative whenever the energy array is nonempty with
positive entries. -/
lemma dlogE_of_nonneg (a : ℝ) (l : List ℝ) (n : ℕ)
    (hpos : ∀ x ∈ a :: l, 0 < x) : 0 ≤ dlogE_of (a :: l) n := by
  have hminpos : 0 < listMin (a :: l) := hpos _ (listMin_mem a l)
  have hle : listMin (a :: l) ≤ listMax (a :: l) := listMin_le_listMax a l
  have hlogle : Real.logb 10 (listMin (a :: l)) ≤ Real.logb 10 (listMax (a :: l)) :=
    Real.logb_le_logb_of_le (by norm_num) hminpos hle
  exact div_nonneg (sub_nonneg.mpr hlogle) (Nat.cast_nonneg n)

end EnergyConversionPIC

namespace EnergyConversionPIC

/-- C2: for every energy array of positive entries and flux array of the
same length `n > 0`, the first component of `accumulated_particle_info`
satisfies `countAccum[0] = f[0]*ene[0]*dlogE` and, for `1 ≤ i < n`,
`countAccum[i] = countAccum[i-1] + f[i]*(ene[i]+ene[i-1])/2 * dlogE`,
where `dlogE = (log10(max ene) - log10(min ene)) / n`. -/
theorem accumulated_count_recurrence (ene f : List ℝ) (n : ℕ)
    (hlen : ene.length = f.length) (hn : f.length = n) (h1 : 0 < n)
    (hpos : ∀ x ∈ ene, 0 < x) :
    (accumulated_particle_info ene f).1.getD 0 0 =
      f.getD 0 0 * ene.getD 0 0 *
        ((Real.logb 10 (listMax ene) - Real.logb 10 (listMin ene)) / n) ∧
    ∀ i : ℕ, 1 ≤ i → i < n →
      (accumulated_particle_info ene f).1.getD i 0 =
        (accumulated_particle_info ene f).1.getD (i - 1) 0 +
          f.getD i 0 * (ene.getD i 0 + ene.getD (i - 1) 0) / 2 *
            ((Real.logb 10 (listMax ene) - Real.logb 10 (listMin ene)) / n) := by
  subst hn
  constructor
  · rw [accumulated_particle_info]
    simp only
    rw [getD_map_range_real _ _ _ h1]
    rw [nacc_unscaled, dlogE_of]
  · intro i hi1 hin
    obtain ⟨j, rfl⟩ : ∃ j, i = j + 1 := ⟨i - 1, by omega⟩
    rw [accumulated_particle_info]
    simp only
    rw [getD_map_range_real _ _ _ hin, getD_map_range_real _ _ _ (by omega)]
    simp only [Nat.add_sub_cancel]
    rw [nacc_unscaled, dlogE_of]
    ring

/-- C2 witness: the recurrence at the concrete arrays
`ene = [10, 100]`, `f = [1, 2]` of length `n = 2`. -/
theorem accumulated_count_recurrence_witness :
    (0 < 2 ∧ ∀ x ∈ [(10 : ℝ), 100], 0 < x) ∧
    ((accumulated_particle_info [(10 : ℝ), 100] [1, 2]).1.getD 0 0 =
      List.getD [(1 : ℝ), 2] 0 0 * List.getD [(10 : ℝ), 100] 0 0 *
        ((Real.logb 10 (listMax [(10 : ℝ), 100]) -
            Real.logb 10 (listMin [(10 : ℝ), 100])) / (2 : ℕ)) ∧
    ∀ i : ℕ, 1 ≤ i → i < 2 →
      (accumulated_particle_info [(10 : ℝ), 100] [1, 2]).1.getD i 0 =
        (accumulated_particle_info [(10 : ℝ), 100] [1, 2]).1.getD (i - 1) 0 +
          List.getD [(1 : ℝ), 2] i 0 *
              (List.getD [(10 : ℝ), 100] i 0 + List.getD [(10 : ℝ), 100] (i - 1) 0) / 2 *
            ((Real.logb 10 (listMax [(10 : ℝ), 100]) -
                Real.logb 10 (listMin [(10 : ℝ), 100])) / (2 : ℕ))) :=
  ⟨⟨by norm_num, by intro x hx; fin_cases hx <;> norm_num⟩,
   accumulated_count_recurrence [(10 : ℝ), 100] [1, 2] 2 rfl rfl (by norm_num)
     (by intro x hx; fin_cases hx <;> norm_num)⟩

/-- C5: for a monotonically increasing, strictly positive energy array
and a strictly positive flux array of the same length, both sequences
returned by `accumulated_particle_info` (accumulated particle count and
accumulated particle energy) are monotonically non-decreasing. -/
theorem accumulated_info_monotone (ene f : List ℝ)
    (hlen : ene.length = f.length) (hne : ene ≠ [])
    (hmono : ∀ i : ℕ, i + 1 < ene.length → ene.getD i 0 < ene.getD (i + 1) 0)
    (hpos : ∀ x ∈ ene, 0 < x) (hfpos : ∀ x ∈ f, 0 < x) :
    (∀ i : ℕ, i + 1 < f.length →
      (accumulated_particle_info ene f).1.getD i 0 ≤
        (accumulated_particle_info ene f).1.getD (i + 1) 0) ∧
    (∀ i : ℕ, i + 1 < f.length →
      (accumulated_particle_info ene f).2.getD i 0 ≤
        (accumulated_particle_info ene f).2.getD (i + 1) 0) := by
  obtain ⟨a, l, rfl⟩ := List.exists_cons_of_ne_nil hne
  have hd : 0 ≤ dlogE_of (a :: l) f.length := dlogE_of_nonneg a l f.length hpos
  have hene_getD : ∀ i : ℕ, i < (a :: l).length → 0 < (a :: l).getD i 0 := by
    intro i hi
    rw [List.getD_eq_getElem _ _ hi]
    exact hpos _ (List.getElem_mem _)
  have hf_getD : ∀ i : ℕ, i < f.length → 0 < f.getD i 0 := by
    intro i hi
    rw [List.getD_eq_getElem _ _ hi]
    exact hfpos _ (List.getElem_mem _)
  constructor
  · intro i hi
    rw [accumulated_particle_info]
    simp only
    rw [getD_map_range_real _ _ _ (by omega), getD_map_range_real _ _ _ hi]
    have hinc : nacc_unscaled (a :: l) f i ≤ nacc_unscaled (a :: l) f (i + 1) := by
      rw [nacc_unscaled]
      have h1 : 0 < f.getD (i + 1) 0 := hf_getD (i + 1) (by omega)
      have h2 : 0 < (a :: l).getD (i + 1) 0 := hene_getD (i + 1) (by omega)
      have h3 : 0 < (a :: l).getD i 0 := hene_getD i (by omega)
      have hterm : 0 ≤ f.getD (i + 1) 0 *
          ((a :: l).getD (i + 1) 0 + (a :: l).getD i 0) * 0.5 :=
        mul_nonneg (mul_nonneg h1.le (by linarith)) (by norm_num)
      linarith
    exact mul_le_mul_of_nonneg_right hinc hd
  · intro i hi
    rw [accumulated_particle_info]
    simp only
    rw [getD_map_range_real _ _ _ (by omega), getD_map_range_real _ _ _ hi]
    have hinc : eacc_unscaled (a :: l) f i ≤ eacc_unscaled (a :: l) f (i + 1) := by
      rw [eacc_unscaled]
      have h1 : 0 < f.getD (i + 1) 0 := hf_getD (i + 1) (by omega)
      have h2 : 0 < (a :: l).getD (i + 1) 0 := hene_getD (i + 1) (by omega)
      have h3 : 0 < (a :: l).getD i 0 := hene_getD i (by omega)
      have h4 : (a :: l).getD i 0 < (a :: l).getD (i + 1) 0 := hmono i (by omega)
      have hterm : 0 ≤ 0.5 * f.getD (i + 1) 0 *
          ((a :: l).getD (i + 1) 0 - (a :: l).getD i 0) *
          ((a :: l).getD (i + 1) 0 + (a :: l).getD i 0) :=
        mul_nonneg (mul_nonneg (mul_nonneg (by norm_num) h1.le)
          (sub_nonneg.mpr h4.le)) (by linarith)
      linarith
    exact mul_le_mul_of_nonneg_right hinc hd

/-- C5 witness: monotonicity of both accumulated sequences at the
concrete arrays `ene = [10, 100]`, `f = [1, 2]`. -/
theorem accumulated_info_monotone_witness :
    ([(10 : ℝ), 100] ≠ ([] : List ℝ)) ∧
    ((∀ i : ℕ, i + 1 < 2 →
      (accumulated_particle_info [(10 : ℝ), 100] [1, 2]).1.getD i 0 ≤
        (accumulated_particle_info [(10 : ℝ), 100] [1, 2]).1.getD (i + 1) 0) ∧
    (∀ i : ℕ, i + 1 < 2 →
      (accumulated_particle_info [(10 : ℝ), 100] [1, 2]).2.getD i 0 ≤
        (accumulated_particle_info [(10 : ℝ), 100] [1, 2]).2.getD (i + 1) 0)) :=
  ⟨by simp,
   accumulated_info_monotone [(10 : ℝ), 100] [1, 2] rfl (by simp)
     (by
       intro i hi
       simp only [List.length_cons, List.length_nil] at hi
       have h0 : i = 0 := by omega
       subst h0
       norm_num)
     (by intro x hx; fin_cases hx <;> norm_num)
     (by intro x hx; fin_cases hx <;> norm_num)⟩

end EnergyConversionPIC

namespace EnergyConversionPIC

/-! ## Energy-spectrum files (`spectrum_fitting.py`)

The spectrum file is a whitespace-delimited text table with four columns
(linear energy bins, flux at linear bins, log energy bins, flux at log
bins); `np.genfromtxt` parses it into a row array, modelled here as
`List SpectrumRow` (the parsed content; a missing file is `none`).

`read_spectrum_data` wraps the `open` in `try/except IOError`: on an
`IOError` it prints "cannot open" and falls off the end of the function
(returning `None`); only on success does it parse and return the data.

`get_energy_distribution(fname, fnorm)` splits the table into its four
columns and divides `flog` — and only `flog` — by `fnorm` before
returning `(ene_lin, flin, ene_log, flog)`. -/

/-- One parsed row of a spectrum file: linear energy bin, flux at
linear bins, log energy bin, flux at log bins. -/
structure SpectrumRow where
  ene_lin : ℚ
  flin : ℚ
  ene_log : ℚ
  flog : ℚ
  deriving DecidableEq

/-- Python-level exceptions relevant to these routines.  `ioError` is
what Python 2's `open` raises for a missing file (spelled
`FileNotFoundError` in the spec); `indexError` is raised by an
out-of-range sequence subscript; `valueError` is raised by
`math.log10` on a non-positive argument and by Python's `max`/`min` on
an empty sequence (and by finiteness-checking `scipy.optimize.curve_fit`
versions on non-finite data); `invalidFitWindow` is the
`InvalidFitWindowError` the spec postulates — no code in the repository
ever constructs it. -/
inductive PyErr where
  | ioError
  | indexError
  | valueError
  | invalidFitWindow
  deriving DecidableEq

/-- `read_spectrum_data(fname)`: the file argument is the parsed content
of the named file, or `none` when the file does not exist.  The
`try/except IOError` catches the open failure, prints a message, and the
function returns `None`; no exception propagates (hence the `Except`
never carries an error). -/
def read_spectrum_data (file : Option (List SpectrumRow)) :
    Except PyErr (Option (List SpectrumRow)) :=
  match file with
  | none => Except.ok none
  | some data => Except.ok (some data)

/-- C9 counterexample: for a missing file, `read_spectrum_data` returns
normally with no data (`ok none`) instead of propagating a file-open
error — the `except IOError` branch prints and falls through. -/
theorem read_spectrum_data_missing_file_no_raise :
    read_spectrum_data none = Except.ok none ∧
    read_spectrum_data none ≠ Except.error PyErr.ioError :=
  ⟨rfl, fun h => Except.noConfusion h⟩

/-- C9 (amended): when the named file does not exist, the `IOError`
raised by `open` is caught inside `read_spectrum_data`, which prints a
message and returns `None` to the caller; no exception propagates.  For
an existing file it returns the parsed table. -/
theorem read_spectrum_data_behavior (d : List SpectrumRow) :
    read_spectrum_data none = Except.ok none ∧
    (∀ e : PyErr, read_spectrum_data none ≠ Except.error e) ∧
    read_spectrum_data (some d) = Except.ok (some d) := by
  refine ⟨rfl, fun e => ?_, rfl⟩
  intro h
  exact Except.noConfusion h

/-- `get_energy_distribution(data, fnorm)`: split the parsed table into
its four columns; `flog /= fnorm` is the only normalization applied
(`flin` is returned exactly as stored). -/
def get_energy_distribution (data : List SpectrumRow) (fnorm : ℚ) :
    List ℚ × List ℚ × List ℚ × List ℚ :=
  let ene_lin := data.map (·.ene_lin)
  let flin := data.map (·.flin)
  let ene_log := data.map (·.ene_log)
  let flog := (data.map (·.flog)).map (· / fnorm)
  (ene_lin, flin, ene_log, flog)

/-- C8 counterexample: with the single stored row `(1, 2, 3, 4)` and
`fnorm = 2`, the linear-bin flux returned by `get_energy_distribution`
is the stored column `[2]`, not the normalized `[2/2] = [1]` the claim
requires. -/
theorem get_energy_distribution_flin_not_normalized :
    (get_energy_distribution [⟨1, 2, 3, 4⟩] 2).2.1 = [(2 : ℚ)] ∧
    (get_energy_distribution [⟨1, 2, 3, 4⟩] 2).2.1 ≠ [(2 : ℚ) / 2] := by
  refine ⟨rfl, ?_⟩
  simp only [get_energy_distribution, List.map_cons, List.map_nil]
  intro h
  have h2 : (2 : ℚ) = 2 / 2 := List.head_eq_of_cons_eq h
  norm_num at h2

/-- C8 (amended): for every spectrum table and nonzero normalization
factor, `get_energy_distribution` divides only the log-bin flux column
by `fnorm`; the linear-bin flux (and both energy columns) are returned
exactly as stored in the file. -/
theorem get_energy_distribution_normalizes_flog_only
    (data : List SpectrumRow) (fnorm : ℚ) (hf : fnorm ≠ 0) :
    get_energy_distribution data fnorm =
      (data.map (·.ene_lin), data.map (·.flin), data.map (·.ene_log),
        data.map (fun r => r.flog / fnorm)) := by
  unfold get_energy_distribution
  simp [List.map_map, Function.comp]

/-- C8 witness: the amended theorem at the single-row table
`(1, 2, 3, 4)` with `fnorm = 2`. -/
theorem get_energy_distribution_normalizes_flog_only_witness :
    (2 : ℚ) ≠ 0 ∧
    get_energy_distribution [⟨1, 2, 3, 4⟩] 2 =
      ([(1 : ℚ)], [(2 : ℚ)], [(3 : ℚ)], [(4 : ℚ) / 2]) :=
  ⟨by decide, get_energy_distribution_normalizes_flog_only [⟨1, 2, 3, 4⟩] 2 (by decide)⟩

/-- The fields of the simulation descriptor (`pic_info`) consumed by the
routines modelled here: grid dimensions, particles per cell, and the
ion-to-electron mass ratio. -/
structure PicInfo where
  nx : ℕ
  ny : ℕ
  nz : ℕ
  nppc : ℕ
  mime : ℝ

/-- `read_energy_distribution(species, tframe, pic_info)`: computes
`ntot = pic_info.nx * pic_info.ny + pic_info.nz * pic_info.nppc` and
returns `get_energy_distribution(data, ntot)` on the parsed spectrum
file for the species (the file content is the `data` argument; the
species only selects the filename). -/
def read_energy_distribution (pic : PicInfo) (data : List SpectrumRow) :
    List ℚ × List ℚ × List ℚ × List ℚ :=
  let ntot : ℕ := pic.nx * pic.ny + pic.nz * pic.nppc
  get_energy_distribution data (ntot : ℚ)

/-- C10: `read_energy_distribution` passes
`ntot = nx*ny + nz*nppc` (the product of `nx` and `ny`, plus the product
of `nz` and `nppc`) to `get_energy_distribution` as the normalization:
its output is `get_energy_distribution` at that factor, and its log-bin
flux column is the stored column divided by that factor. -/
theorem read_energy_distribution_norm_factor (pic : PicInfo)
    (data : List SpectrumRow) :
    read_energy_distribution pic data =
      get_energy_distribution data ((pic.nx * pic.ny + pic.nz * pic.nppc : ℕ) : ℚ) ∧
    (read_energy_distribution pic data).2.2.2 =
      data.map (fun r => r.flog / ((pic.nx * pic.ny + pic.nz * pic.nppc : ℕ) : ℚ)) := by
  refine ⟨rfl, ?_⟩
  unfold read_energy_distribution get_energy_distribution
  simp [List.map_map, Function.comp]

end EnergyConversionPIC

namespace EnergyConversionPIC

/-! ## `np.argmax` and `np.convolve` over rational arrays

`np.argmax` returns the index of the first occurrence of the maximum
value.  `np.convolve(a, v)` is the full discrete convolution
`c[k] = sum_j a[j] * v[k-j]` of length `len(a)+len(v)-1`; mode `'same'`
returns the centered `max(len(a), len(v))` entries, i.e. it drops the
first `(min(len(a), len(v)) - 1) / 2` entries of the full result. -/

/-- First index of the maximum of a rational array (`np.argmax`
semantics: ties resolve to the lowest index; 0 for the empty array the
source never feeds it). -/
def npArgmax : List ℚ → ℕ
  | [] => 0
  | [_] => 0
  | x :: y :: t =>
    let j := npArgmax (y :: t)
    if x < (y :: t).getD j 0 then j + 1 else 0

/-- `np.argmax` indexes into the array. -/
lemma npArgmax_lt_length (l : List ℚ) (h : l ≠ []) : npArgmax l < l.length := by
  induction l with
  | nil => exact absurd rfl h
  | cons x t ih =>
    cases t with
    | nil => simp [npArgmax]
    | cons y s =>
      rw [npArgmax]
      have hlen := ih (by simp)
      simp only [List.length_cons] at hlen ⊢
      by_cases hx : x < (y :: s).getD (npArgmax (y :: s)) 0
      · simp only [if_pos hx]
        omega
      · simp only [if_neg hx]
        omega

/-- Every entry is at most the entry at `np.argmax`. -/
lemma npArgmax_is_max (l : List ℚ) :
    ∀ j, j < l.length → l.getD j 0 ≤ l.getD (npArgmax l) 0 := by
  induction l with
  | nil => intro j hj; simp at hj
  | cons x t ih =>
    cases t with
    | nil =>
      intro j hj
      simp only [List.length_cons, List.length_nil] at hj
      interval_cases j <;> simp [npArgmax]
    | cons y s =>
      intro j hj
      rw [npArgmax]
      by_cases hx : x < (y :: s).getD (npArgmax (y :: s)) 0
      · rw [if_pos hx]
        rw [List.getD_cons_succ]
        cases j with
        | zero => simpa using hx.le
        | succ i =>
          rw [List.getD_cons_succ]
          exact ih i (by simpa using hj)
      · rw [if_neg hx]
        rw [List.getD_cons_zero]
        cases j with
        | zero => simp
        | succ i =>
          rw [List.getD_cons_succ]
          push_neg at hx
          exact le_trans (ih i (by simpa using hj)) hx

/-- Entries strictly before `np.argmax` are strictly below the maximum:
`np.argmax` is the first occurrence. -/
lemma npArgmax_first (l : List ℚ) :
    ∀ j, j < npArgmax l → l.getD j 0 < l.getD (npArgmax l) 0 := by
  induction l with
  | nil => intro j hj; simp [npArgmax] at hj
  | cons x t ih =>
    cases t with
    | nil => intro j hj; simp [npArgmax] at hj
    | cons y s =>
      intro j hj
      rw [npArgmax] at hj ⊢
      by_cases hx : x < (y :: s).getD (npArgmax (y :: s)) 0
      · rw [if_pos hx] at hj ⊢
        rw [List.getD_cons_succ]
        cases j with
        | zero => simpa using hx
        | succ i =>
          rw [List.getD_cons_succ]
          exact ih i (by omega)
      · rw [if_neg hx] at hj
        omega

/-- Full discrete convolution `np.convolve(a, v)`:
`c[k] = sum_{j} a[j] * v[k-j]` for `k = 0 .. len(a)+len(v)-2`. -/
def convolve_full (a v : List ℚ) : List ℚ :=
  (List.range (a.length + v.length - 1)).map fun k =>
    ∑ j ∈ Finset.range a.length,
      if j ≤ k ∧ k - j < v.length then a.getD j 0 * v.getD (k - j) 0 else 0

/-- `np.convolve(a, v, 'same')`: the centered `max(len(a), len(v))`
entries of the full convolution. -/
def convolve_same (a v : List ℚ) : List ℚ :=
  ((convolve_full a v).drop ((min a.length v.length - 1) / 2)).take
    (max a.length v.length)

/-- The smoothing kernel of `fit_thermal_core`: `np.ones(3) / 3`. -/
def kernel3 : List ℚ := (List.replicate 3 1).map (fun x => x / 3)

end EnergyConversionPIC

namespace EnergyConversionPIC

/-! ## `power_law_fit` (`spectrum_fitting.py`)

`power_law_fit(ene, f, offset, extend)` computes
`estart = np.argmax(f) + offset` and `eend = estart + extend`, then in
source order:

* line 771: passes `np.log10` of the slices `ene[estart:eend]` and
  `f[estart:eend]` to `scipy.optimize.curve_fit`.  `np.log10` maps
  non-positive entries to `nan`/`-inf` elementwise *without raising*;
  the external fitter is abstracted as the `Except`-valued oracle
  `cfit` over the raw slices (it absorbs the elementwise `log10`), and
  anything it raises — scipy raises `TypeError` when the window holds
  fewer points than the two parameters, and finiteness-checking scipy
  versions raise `ValueError` on the non-finite values `log10` makes
  from non-positive flux — propagates from this point, before any
  subscript below;
* line 774: prints `ene[estart]` and `ene[eend]` — plain subscripts
  that raise `IndexError` when the index is at or past the array
  length;
* lines 780-782: calls `accumulated_particle_info` on
  `(ene[estart:eend], fpower[estart:eend])` and on `(ene, f)`.  Its
  `dlogE` line applies Python's `math.log10` — which, unlike
  `np.log10`, raises `ValueError` on a non-positive argument — to
  `max(...)` and `min(...)` of the *energy* argument, and `max`/`min`
  themselves raise on an empty sequence.  The flux argument (`fpower`,
  the exponentiated fitted line, and `f`) never reaches `math.log10`,
  so non-positive flux raises nothing here.

No window validation of any kind appears in the function: the
repository defines no `InvalidFitWindowError` and never adjusts
`estart`/`eend`.  On the non-raising path the window indices and the
oracle's coefficients determine the returned record, so the model
returns `(estart, eend, popt)`. -/

/-- Python's two-argument `min`. -/
def qmin (a b : ℚ) : ℚ := if a ≤ b then a else b

/-- Python's `min` over a (nonempty) rational array; 0 for the empty
array, on which Python's `min` raises instead — see
`accumulated_info_raises`. -/
def qListMin : List ℚ → ℚ
  | [] => 0
  | a :: l => l.foldl qmin a

/-- Exactly when the `dlogE` line of `accumulated_particle_info`
raises a `ValueError` on energy argument `ene`: `max(ene)`/`min(ene)`
raise on an empty array, and `math.log10` raises iff its argument is
non-positive — which, across the two calls `log10(max(ene))` and
`log10(min(ene))`, happens iff `min(ene) ≤ 0`. -/
def accumulated_info_raises (ene : List ℚ) : Bool :=
  ene.isEmpty || decide (qListMin ene ≤ 0)

/-- `power_law_fit` with `scipy.optimize.curve_fit` abstracted as the
`Except`-valued oracle `cfit` on the window slices; every other stage
is the repository's own code, modelled in source order. -/
def power_law_fit (ene f : List ℚ) (offset extend : ℕ)
    (cfit : List ℚ → List ℚ → Except PyErr (ℚ × ℚ)) :
    Except PyErr (ℕ × ℕ × (ℚ × ℚ)) :=
  let estart := npArgmax f + offset
  let eend := estart + extend
  match cfit ((ene.drop estart).take extend) ((f.drop estart).take extend) with
  | Except.error e => Except.error e
  | Except.ok popt =>
    if estart < ene.length ∧ eend < ene.length then
      if accumulated_info_raises ((ene.drop estart).take extend) then
        Except.error PyErr.valueError
      else if accumulated_info_raises ene then
        Except.error PyErr.valueError
      else
        Except.ok (estart, eend, popt)
    else
      Except.error PyErr.indexError

/-- A fit oracle that returns coefficients without raising — what
`curve_fit` does on a well-posed window, and what pre-finiteness-check
scipy does even on non-finite data (`leastsq` runs unchecked). -/
def cfit_const_ok : List ℚ → List ℚ → Except PyErr (ℚ × ℚ) :=
  fun _ _ => Except.ok (0, 0)

/-- A fit oracle modelling finiteness-checking `curve_fit` versions,
which raise `ValueError` on the `nan`/`-inf` that `np.log10` makes
from non-positive flux. -/
def cfit_raise_value : List ℚ → List ℚ → Except PyErr (ℚ × ℚ) :=
  fun _ _ => Except.error PyErr.valueError

/-- C3 counterexample: `power_law_fit` never raises an
`InvalidFitWindowError`.  With `ene = [1,2,3,4]`, `f = [1,5,2,1]`,
`offset = 1`, `extend = 3`, the window `[2, 5)` runs past the array
(`5 > 4`, the claim's first trigger; the window slices `[3,4]`/`[2,1]`
are well-posed, so the fitter succeeds) and the failure is the
`IndexError` from `ene[eend]`, not an `InvalidFitWindowError`.  With
`ene = [1,2,3,4]`, `f = [1,5,-1,2]`, `offset = 0`, `extend = 2`, the
in-bounds window `[1, 3)` contains the non-positive flux value `-1`
(the claim's second trigger), yet no `InvalidFitWindowError` arises
under either external-fitter behavior: a fitter tolerating the
non-finite `log10` values returns and the call completes normally
(the window energies `[2,3]` and full energies are positive), and a
finiteness-checking fitter propagates its own `ValueError`. -/
theorem power_law_fit_no_invalid_window_error :
    (power_law_fit [1, 2, 3, 4] [1, 5, 2, 1] 1 3 cfit_const_ok =
        Except.error PyErr.indexError ∧
      power_law_fit [1, 2, 3, 4] [1, 5, 2, 1] 1 3 cfit_const_ok ≠
        Except.error PyErr.invalidFitWindow) ∧
    (power_law_fit [1, 2, 3, 4] [1, 5, -1, 2] 0 2 cfit_const_ok =
        Except.ok (1, 3, (0, 0)) ∧
      power_law_fit [1, 2, 3, 4] [1, 5, -1, 2] 0 2 cfit_raise_value =
        Except.error PyErr.valueError ∧
      power_law_fit [1, 2, 3, 4] [1, 5, -1, 2] 0 2 cfit_raise_value ≠
        Except.error PyErr.invalidFitWindow) := by
  refine ⟨⟨rfl, ?_⟩, rfl, rfl, ?_⟩
  · intro h
    rw [show power_law_fit [1, 2, 3, 4] [1, 5, 2, 1] 1 3 cfit_const_ok =
        Except.error PyErr.indexError from rfl] at h
    exact PyErr.noConfusion (Except.error.inj h)
  · intro h
    rw [show power_law_fit [1, 2, 3, 4] [1, 5, -1, 2] 0 2 cfit_raise_value =
        Except.error PyErr.valueError from rfl] at h
    exact PyErr.noConfusion (Except.error.inj h)

/-- C3 (amended): `power_law_fit` performs no window validation and
defines no `InvalidFitWindowError`; its failure behavior, in source
order, is: (1) whatever the external `curve_fit` raises on the
`log10`-transformed window slices propagates first; (2) otherwise,
whenever `argmax(f) + offset + extend ≥ len(ene)`, the subscript
`ene[eend]` raises an `IndexError` (`eend = len(ene)` also raises,
although the claim's "exceeds the length" trigger is then false);
(3) otherwise, if the window's energy slice — or the full energy
array — is empty or has a non-positive minimum, the `math.log10`
inside the `accumulated_particle_info` calls raises a `ValueError`;
(4) otherwise the call returns normally with the window exactly as
computed (no auto-adjustment) and the fitted coefficients.
Non-positive *flux* in the window is never itself checked: it reaches
`np.log10` (silently non-finite) and the external fitter, and —
provided the fitter does not itself raise the nonexistent class — no
path produces an `InvalidFitWindowError`. -/
theorem power_law_fit_window_behavior (ene f : List ℚ) (offset extend : ℕ)
    (cfit : List ℚ → List ℚ → Except PyErr (ℚ × ℚ)) :
    (∀ e : PyErr,
      cfit ((ene.drop (npArgmax f + offset)).take extend)
          ((f.drop (npArgmax f + offset)).take extend) = Except.error e →
      power_law_fit ene f offset extend cfit = Except.error e) ∧
    (∀ popt : ℚ × ℚ,
      cfit ((ene.drop (npArgmax f + offset)).take extend)
          ((f.drop (npArgmax f + offset)).take extend) = Except.ok popt →
      (ene.length ≤ npArgmax f + offset + extend →
        power_law_fit ene f offset extend cfit =
          Except.error PyErr.indexError) ∧
      (npArgmax f + offset + extend < ene.length →
        (accumulated_info_raises
              ((ene.drop (npArgmax f + offset)).take extend) = true ∨
            accumulated_info_raises ene = true →
          power_law_fit ene f offset extend cfit =
            Except.error PyErr.valueError) ∧
        (accumulated_info_raises
            ((ene.drop (npArgmax f + offset)).take extend) = false →
          accumulated_info_raises ene = false →
          power_law_fit ene f offset extend cfit =
            Except.ok (npArgmax f + offset, npArgmax f + offset + extend,
              popt)))) ∧
    ((∀ a b : List ℚ, cfit a b ≠ Except.error PyErr.invalidFitWindow) →
      power_law_fit ene f offset extend cfit ≠
        Except.error PyErr.invalidFitWindow) := by
  have h1 : ∀ e : PyErr,
      cfit ((ene.drop (npArgmax f + offset)).take extend)
          ((f.drop (npArgmax f + offset)).take extend) = Except.error e →
      power_law_fit ene f offset extend cfit = Except.error e := by
    intro e he
    simp only [power_law_fit]
    rw [he]
  have h2 : ∀ popt : ℚ × ℚ,
      cfit ((ene.drop (npArgmax f + offset)).take extend)
          ((f.drop (npArgmax f + offset)).take extend) = Except.ok popt →
      (ene.length ≤ npArgmax f + offset + extend →
        power_law_fit ene f offset extend cfit =
          Except.error PyErr.indexError) ∧
      (npArgmax f + offset + extend < ene.length →
        (accumulated_info_raises
              ((ene.drop (npArgmax f + offset)).take extend) = true ∨
            accumulated_info_raises ene = true →
          power_law_fit ene f offset extend cfit =
            Except.error PyErr.valueError) ∧
        (accumulated_info_raises
            ((ene.drop (npArgmax f + offset)).take extend) = false →
          accumulated_info_raises ene = false →
          power_law_fit ene f offset extend cfit =
            Except.ok (npArgmax f + offset, npArgmax f + offset + extend,
              popt))) := by
    intro popt hp
    constructor
    · intro hlen
      simp only [power_law_fit, hp]
      rw [if_neg (by omega)]
    · intro hlt
      constructor
      · intro hraise
        simp only [power_law_fit, hp]
        rw [if_pos (by omega)]
        rcases hraise with h | h
        · rw [if_pos h]
        · by_cases hw : accumulated_info_raises
              ((ene.drop (npArgmax f + offset)).take extend) = true
          · rw [if_pos hw]
          · rw [if_neg hw, if_pos h]
      · intro hw hene
        simp only [power_law_fit, hp]
        rw [if_pos (by omega), if_neg (by rw [hw]; exact Bool.false_ne_true),
          if_neg (by rw [hene]; exact Bool.false_ne_true)]
  refine ⟨h1, h2, ?_⟩
  intro hcfit h
  rcases hcase : cfit ((ene.drop (npArgmax f + offset)).take extend)
      ((f.drop (npArgmax f + offset)).take extend) with e | popt
  · have hres := h1 e hcase
    rw [hres] at h
    exact hcfit _ _ (by rw [hcase, Except.error.inj h])
  · by_cases hb : npArgmax f + offset + extend < ene.length
    · by_cases hwin : accumulated_info_raises
          ((ene.drop (npArgmax f + offset)).take extend) = true
      · have hres := ((h2 popt hcase).2 hb).1 (Or.inl hwin)
        rw [hres] at h
        exact PyErr.noConfusion (Except.error.inj h)
      · by_cases hene : accumulated_info_raises ene = true
        · have hres := ((h2 popt hcase).2 hb).1 (Or.inr hene)
          rw [hres] at h
          exact PyErr.noConfusion (Except.error.inj h)
        · have hres := ((h2 popt hcase).2 hb).2 (by simpa using hwin)
            (by simpa using hene)
          rw [hres] at h
          exact Except.noConfusion h
    · have hres := (h2 popt hcase).1 (by omega)
      rw [hres] at h
      exact PyErr.noConfusion (Except.error.inj h)

/-- C3 witness: the amended theorem applied at concrete inputs
exercising every branch — the out-of-bounds window (`IndexError`), the
in-bounds window with non-positive flux and a tolerant fitter (normal
return), the in-bounds window with a non-positive window energy
(`ValueError` from `math.log10`), and the never-`InvalidFitWindowError`
conclusion under a finiteness-checking fitter. -/
theorem power_law_fit_window_behavior_witness :
    (power_law_fit [1, 2, 3, 4] [1, 5, 2, 1] 1 3 cfit_const_ok =
        Except.error PyErr.indexError) ∧
    (power_law_fit [1, 2, 3, 4] [1, 5, -1, 2] 0 2 cfit_const_ok =
      Except.ok (npArgmax [1, 5, -1, 2] + 0, npArgmax [1, 5, -1, 2] + 0 + 2,
        (0, 0))) ∧
    (power_law_fit [1, 5, -1, 2] [1, 5, 2, 1] 0 2 cfit_const_ok =
        Except.error PyErr.valueError) ∧
    (power_law_fit [1, 2, 3, 4] [1, 5, -1, 2] 0 2 cfit_raise_value ≠
        Except.error PyErr.invalidFitWindow) :=
  ⟨((power_law_fit_window_behavior [1, 2, 3, 4] [1, 5, 2, 1] 1 3
        cfit_const_ok).2.1 (0, 0) rfl).1 (by decide),
   ((((power_law_fit_window_behavior [1, 2, 3, 4] [1, 5, -1, 2] 0 2
        cfit_const_ok).2.1 (0, 0) rfl).2 (by decide)).2 (by decide) (by decide)),
   ((((power_law_fit_window_behavior [1, 5, -1, 2] [1, 5, 2, 1] 0 2
        cfit_const_ok).2.1 (0, 0) rfl).2 (by decide)).1 (Or.inl (by decide))),
   (power_law_fit_window_behavior [1, 2, 3, 4] [1, 5, -1, 2] 0 2
        cfit_raise_value).2.2
      (fun a b hab => PyErr.noConfusion (Except.error.inj hab))⟩

end EnergyConversionPIC

namespace EnergyConversionPIC

/-! ## `fit_thermal_core` (`spectrum_fitting.py`)

`fit_thermal_core(ene, f)` sets `estart = 0`, smooths the flux with
`fnew = np.convolve(f, np.ones(3)/3, 'same')`, sets
`eend = np.argmax(fnew) + 10`, fits
`fitting_funcs.func_maxwellian` to `(ene[estart:eend], f[estart:eend])`
with `scipy.optimize.curve_fit` (abstracted as the total oracle `cfit`),
and returns `func_maxwellian(ene, popt[0], popt[1])` over the full
energy array. -/

/-- Modelled from the spec: `fitting_funcs.func_maxwellian` lives in the
`fitting_funcs` module, which is not part of this repository's sources;
the spec gives the two-parameter Maxwellian model
`f(E) = A * sqrt(E) * exp(-B * E)`. -/
noncomputable def func_maxwellian (ene A B : ℝ) : ℝ :=
  A * Real.sqrt ene * Real.exp (-B * ene)

/-- `fit_thermal_core(ene, f)` with `curve_fit` abstracted as `cfit`
(returning the two fitted coefficients `popt`). -/
noncomputable def fit_thermal_core (ene f : List ℚ)
    (cfit : List ℚ → List ℚ → ℚ × ℚ) : List ℝ :=
  let estart := 0
  let fnew := convolve_same f kernel3
  let nshift := 10
  let eend := npArgmax fnew + nshift
  let popt := cfit ((ene.drop estart).take (eend - estart))
    ((f.drop estart).take (eend - estart))
  ene.map fun E => func_maxwellian (E : ℝ) (popt.1 : ℝ) (popt.2 : ℝ)

/-- The smoothed array has the same length as the flux array
(numpy `'same'` mode), once the flux has at least 3 entries. -/
lemma convolve_same_kernel3_length (f : List ℚ) (h3 : 3 ≤ f.length) :
    (convolve_same f kernel3).length = f.length := by
  rw [convolve_same, List.length_take, List.length_drop, convolve_full,
    List.length_map, List.length_range]
  simp only [kernel3, List.length_map, List.length_replicate]
  omega

/-- Interior entries of `np.convolve(f, np.ones(3)/3, 'same')` are the
length-3 moving average of `f`. -/
lemma convolve_same_kernel3_getD (f : List ℚ) (h3 : 3 ≤ f.length) (i : ℕ)
    (h0 : 0 < i) (hi : i + 1 < f.length) :
    (convolve_same f kernel3).getD i 0 =
      (f.getD (i - 1) 0 + f.getD i 0 + f.getD (i + 1) 0) / 3 := by
  have hk : kernel3.length = 3 := by decide
  have hlen : (convolve_full f kernel3).length = f.length + 2 := by
    rw [convolve_full, List.length_map, List.length_range, hk]
    omega
  have hsame : (convolve_same f kernel3).getD i 0 =
      (convolve_full f kernel3).getD (i + 1) 0 := by
    rw [convolve_same, hk]
    have hmin : min f.length 3 = 3 := by omega
    have hmax : max f.length 3 = f.length := by omega
    rw [hmin, hmax]
    rw [List.getD_eq_getElem?_getD, List.getD_eq_getElem?_getD]
    rw [List.getElem?_take_of_lt (by omega), List.getElem?_drop]
    norm_num
    rw [Nat.add_comm 1 i]
  rw [hsame]
  rw [convolve_full]
  have hfull : ((List.range (f.length + kernel3.length - 1)).map fun k =>
      ∑ j ∈ Finset.range f.length,
        if j ≤ k ∧ k - j < kernel3.length then
          f.getD j 0 * kernel3.getD (k - j) 0 else 0).getD (i + 1) 0 =
      ∑ j ∈ Finset.range f.length,
        if j ≤ i + 1 ∧ i + 1 - j < kernel3.length then
          f.getD j 0 * kernel3.getD (i + 1 - j) 0 else 0 := by
    have := getD_map_range (α := ℚ) (fun k =>
      ∑ j ∈ Finset.range f.length,
        if j ≤ k ∧ k - j < kernel3.length then
          f.getD j 0 * kernel3.getD (k - j) 0 else 0)
      (f.length + kernel3.length - 1) (i + 1) (by rw [hk]; omega)
    simpa using this
  rw [hfull]
  have hS : ({i - 1, i, i + 1} : Finset ℕ) ⊆ Finset.range f.length := by
    intro x hx
    simp only [Finset.mem_insert, Finset.mem_singleton] at hx
    rw [Finset.mem_range]
    omega
  rw [← Finset.sum_subset hS]
  · have hne1 : i - 1 ∉ ({i, i + 1} : Finset ℕ) := by
      simp only [Finset.mem_insert, Finset.mem_singleton]
      omega
    have hne2 : i ∉ ({i + 1} : Finset ℕ) := by
      simp only [Finset.mem_singleton]
      omega
    rw [Finset.sum_insert hne1, Finset.sum_insert hne2, Finset.sum_singleton]
    have e1 : i + 1 - (i - 1) = 2 := by omega
    have e2 : i + 1 - i = 1 := by omega
    have e3 : i + 1 - (i + 1) = 0 := by omega
    rw [if_pos (by rw [hk]; omega), if_pos (by rw [hk]; omega),
      if_pos (by rw [hk]; omega), e1, e2, e3]
    have k0 : kernel3.getD 0 0 = 1 / 3 := by norm_num [kernel3]
    have k1 : kernel3.getD 1 0 = 1 / 3 := by norm_num [kernel3]
    have k2 : kernel3.getD 2 0 = 1 / 3 := by norm_num [kernel3]
    rw [k0, k1, k2]
    ring
  · intro x hxr hxS
    simp only [Finset.mem_insert, Finset.mem_singleton] at hxS
    push_neg at hxS
    rw [if_neg]
    rw [hk]
    omega

/-- C4: for a sufficiently long input, `fit_thermal_core` smooths the
flux with the length-3 moving-average kernel (`fnew` has the same
length as `f`, and its interior entries are the 3-point moving
average), takes the first index of maximum smoothed flux as the peak,
fits the Maxwellian over the unsmoothed bins `[0, peak + 10)` — a
window lying fully inside the array — and returns the fitted model
evaluated over the full-length energy array. -/
theorem fit_thermal_core_spec (ene f : List ℚ)
    (cfit : List ℚ → List ℚ → ℚ × ℚ) (h3 : 3 ≤ f.length)
    (hlen : ene.length = f.length)
    (hlong : npArgmax (convolve_same f kernel3) + 10 ≤ f.length) :
    (convolve_same f kernel3).length = f.length ∧
    (∀ i : ℕ, 0 < i → i + 1 < f.length →
      (convolve_same f kernel3).getD i 0 =
        (f.getD (i - 1) 0 + f.getD i 0 + f.getD (i + 1) 0) / 3) ∧
    (∀ j : ℕ, j < f.length →
      (convolve_same f kernel3).getD j 0 ≤
        (convolve_same f kernel3).getD (npArgmax (convolve_same f kernel3)) 0) ∧
    (∀ j : ℕ, j < npArgmax (convolve_same f kernel3) →
      (convolve_same f kernel3).getD j 0 <
        (convolve_same f kernel3).getD (npArgmax (convolve_same f kernel3)) 0) ∧
    (ene.take (npArgmax (convolve_same f kernel3) + 10)).length =
      npArgmax (convolve_same f kernel3) + 10 ∧
    fit_thermal_core ene f cfit =
      ene.map (fun E => func_maxwellian (E : ℝ)
        ((cfit (ene.take (npArgmax (convolve_same f kernel3) + 10))
            (f.take (npArgmax (convolve_same f kernel3) + 10))).1 : ℝ)
        ((cfit (ene.take (npArgmax (convolve_same f kernel3) + 10))
            (f.take (npArgmax (convolve_same f kernel3) + 10))).2 : ℝ)) := by
  have hL : (convolve_same f kernel3).length = f.length :=
    convolve_same_kernel3_length f h3
  refine ⟨hL, fun i h0 hi => convolve_same_kernel3_getD f h3 i h0 hi,
    fun j hj => npArgmax_is_max _ j (by omega), npArgmax_first _, ?_, ?_⟩
  · rw [List.length_take]
    omega
  · rfl

/-- The smoothed flux of the witness array `f = [9, 0, ..., 0]`:
`(9+0)/3 = 3` at indices 0 and 1 (the boundary entry sees zero padding),
0 beyond. -/
lemma convolve_same_sample :
    convolve_same [9, 0, 0, 0, 0, 0, 0, 0, 0, 0, 0] kernel3 =
      [3, 3, 0, 0, 0, 0, 0, 0, 0, 0, 0] := by
  simp only [convolve_same, convolve_full, kernel3]
  norm_num [List.range_succ, Finset.sum_range_succ, List.getD]

/-- The smoothed witness flux ties at indices 0 and 1; `np.argmax`
resolves to the first. -/
lemma npArgmax_convolve_sample :
    npArgmax (convolve_same [9, 0, 0, 0, 0, 0, 0, 0, 0, 0, 0] kernel3) = 0 := by
  rw [convolve_same_sample]
  decide

/-- C4 witness: the concrete arrays `ene = [1,...,11]`,
`f = [9,0,...,0]` of length 11 — the smoothed flux peaks first at index
0, so the fitting window is `[0, 10)` inside the length-11 array. -/
theorem fit_thermal_core_spec_witness :
    (3 ≤ ([9, 0, 0, 0, 0, 0, 0, 0, 0, 0, 0] : List ℚ).length ∧
      npArgmax (convolve_same [9, 0, 0, 0, 0, 0, 0, 0, 0, 0, 0] kernel3) + 10 ≤
        ([9, 0, 0, 0, 0, 0, 0, 0, 0, 0, 0] : List ℚ).length) ∧
    fit_thermal_core [1, 2, 3, 4, 5, 6, 7, 8, 9, 10, 11]
        [9, 0, 0, 0, 0, 0, 0, 0, 0, 0, 0] (fun _ _ => (1, 2)) =
      ([1, 2, 3, 4, 5, 6, 7, 8, 9, 10, 11] : List ℚ).map
        (fun E => func_maxwellian (E : ℝ)
          (((fun _ _ => ((1 : ℚ), (2 : ℚ)))
              (([1, 2, 3, 4, 5, 6, 7, 8, 9, 10, 11] : List ℚ).take
                (npArgmax (convolve_same [9, 0, 0, 0, 0, 0, 0, 0, 0, 0, 0] kernel3) + 10))
              (([9, 0, 0, 0, 0, 0, 0, 0, 0, 0, 0] : List ℚ).take
                (npArgmax (convolve_same [9, 0, 0, 0, 0, 0, 0, 0, 0, 0, 0] kernel3) + 10))).1 : ℝ)
          (((fun _ _ => ((1 : ℚ), (2 : ℚ)))
              (([1, 2, 3, 4, 5, 6, 7, 8, 9, 10, 11] : List ℚ).take
                (npArgmax (convolve_same [9, 0, 0, 0, 0, 0, 0, 0, 0, 0, 0] kernel3) + 10))
              (([9, 0, 0, 0, 0, 0, 0, 0, 0, 0, 0] : List ℚ).take
                (npArgmax (convolve_same [9, 0, 0, 0, 0, 0, 0, 0, 0, 0, 0] kernel3) + 10))).2 : ℝ)) :=
  ⟨⟨by decide, by simp [npArgmax_convolve_sample]⟩,
   (fit_thermal_core_spec [1, 2, 3, 4, 5, 6, 7, 8, 9, 10, 11]
      [9, 0, 0, 0, 0, 0, 0, 0, 0, 0, 0] (fun _ _ => (1, 2)) (by decide) (by decide)
      (by simp [npArgmax_convolve_sample])).2.2.2.2.2⟩

end EnergyConversionPIC

namespace EnergyConversionPIC

/-! ## `read_velocity_distribution` (`particle_distribution.py`)

After decoding the velocity-bin arrays and bounds from the binary file,
`read_velocity_distribution` computes `smime = math.sqrt(pic_info.mime)`
and, only when `species == 'h'`, divides `vbins_short`, `vbins_long`,
`vmin` and `vmax` by `smime` (the upstream writer stores
`sqrt(m_i) * u` for ions); every other species' values are returned as
decoded. -/

/-- The velocity-unit correction step of `read_velocity_distribution`
applied to the decoded bin arrays and bounds. -/
noncomputable def adjust_velocity_units (species : String) (pic : PicInfo)
    (vbins_short vbins_long : List ℝ) (vmin vmax : ℝ) :
    List ℝ × List ℝ × ℝ × ℝ :=
  let smime := Real.sqrt pic.mime
  if species = "h" then
    (vbins_short.map (fun v => v / smime), vbins_long.map (fun v => v / smime),
      vmin / smime, vmax / smime)
  else
    (vbins_short, vbins_long, vmin, vmax)

/-- C7: for the ion species `'h'`, `read_velocity_distribution` divides
the decoded velocity-bin arrays and the velocity bounds by
`sqrt(mime)` before returning; for `mime = 25` a stored velocity `5.0`
decodes to `1.0`; for the electron species `'e'` all values are
returned unchanged. -/
theorem read_velocity_distribution_unit_correction :
    (∀ (pic : PicInfo) (vbs vbl : List ℝ) (vmin vmax : ℝ),
      adjust_velocity_units "h" pic vbs vbl vmin vmax =
        (vbs.map (fun v => v / Real.sqrt pic.mime),
          vbl.map (fun v => v / Real.sqrt pic.mime),
          vmin / Real.sqrt pic.mime, vmax / Real.sqrt pic.mime) ∧
      adjust_velocity_units "e" pic vbs vbl vmin vmax =
        (vbs, vbl, vmin, vmax)) ∧
    adjust_velocity_units "h" ⟨0, 0, 0, 0, 25⟩ [5] [5] 5 5 =
      ([1], [1], 1, 1) := by
  have hsqrt : Real.sqrt 25 = 5 := by
    rw [show (25 : ℝ) = 5 ^ 2 by norm_num]
    exact Real.sqrt_sq (by norm_num)
  constructor
  · intro pic vbs vbl vmin vmax
    constructor
    · rw [adjust_velocity_units, if_pos rfl]
    · rw [adjust_velocity_units, if_neg (by decide)]
  · rw [adjust_velocity_units, if_pos rfl]
    simp only [hsqrt]
    norm_num

end EnergyConversionPIC

namespace EnergyConversionPIC

/-! ## `calc_velocity_distribution` (`particle_distribution.py`)

Per particle, the flattened cell index is decomposed with the
ghost-inclusive grid dimensions `nx+2`, `ny+2`
(`iz = icell // (nx*ny)`, `iy = (icell - iz*nx*ny) // nx`,
`ix = icell - iz*nx*ny - iy*nx`); the physical position is
`origin + ((cellIndex - 1.0) + (relPos + 1.0)*0.5) * cellSpacing`,
divided by `sqrt(mime)` (di to de units).  Particles are kept by the
mask `(x >= corners[0][0]) & (x <= corners[0][1]) & ...` — inclusive on
both ends of all three ranges — and the velocity components of the kept
particles are binned by `np.histogram2d(·, ·, bins=nbins,
range=[[-1,1],[-1,1]])` in the pairs (uy,ux), (uz,ux), (uz,uy). -/

/-- The grid fields of the particle-file `v0` header used here. -/
structure V0 where
  nx : ℕ
  ny : ℕ
  nz : ℕ
  x0 : ℝ
  y0 : ℝ
  z0 : ℝ
  dx : ℝ
  dy : ℝ
  dz : ℝ

/-- One decoded particle record: relative position in its cell,
flattened cell index, velocity components and charge/weight. -/
structure Particle where
  dx : ℝ
  dy : ℝ
  dz : ℝ
  icell : ℕ
  ux : ℝ
  uy : ℝ
  uz : ℝ
  q : ℝ

/-- The sampling-box corners `[[xs,xe],[ys,ye],[zs,ze]]`. -/
structure Corners where
  xs : ℝ
  xe : ℝ
  ys : ℝ
  ye : ℝ
  zs : ℝ
  ze : ℝ

/-- Reconstructed physical position of a particle (lines computing
`iz, iy, ix` and `z, y, x`, then the `sqrt(mime)` division). -/
noncomputable def particle_position (v0 : V0) (mime : ℝ) (p : Particle) :
    ℝ × ℝ × ℝ :=
  let nx := v0.nx + 2
  let ny := v0.ny + 2
  let iz := p.icell / (nx * ny)
  let iy := (p.icell - iz * nx * ny) / nx
  let ix := p.icell - iz * nx * ny - iy * nx
  let z := v0.z0 + (((iz : ℝ) - 1) + (p.dz + 1) * 0.5) * v0.dz
  let y := v0.y0 + (((iy : ℝ) - 1) + (p.dy + 1) * 0.5) * v0.dy
  let x := v0.x0 + (((ix : ℝ) - 1) + (p.dx + 1) * 0.5) * v0.dx
  let smime := Real.sqrt mime
  (x / smime, y / smime, z / smime)

/-- The spatial mask of `calc_velocity_distribution`:
`(x >= xs) & (x <= xe) & (y >= ys) & (y <= ye) & (z >= zs) & (z <= ze)`. -/
def in_box (c : Corners) (x y z : ℝ) : Prop :=
  x ≥ c.xs ∧ x ≤ c.xe ∧ y ≥ c.ys ∧ y ≤ c.ye ∧ z ≥ c.zs ∧ z ≤ c.ze

noncomputable instance in_box_decidable (c : Corners) (x y z : ℝ) :
    Decidable (in_box c x y z) := by
  unfold in_box
  infer_instance

/-- The bin index `np.histogram2d` assigns to a sample value over the
range `[-1, 1]` with `nbins` equal-width bins: values outside the range
are dropped (`none`); the maximum value falls in the last bin; otherwise
bin `i` spans `[-1 + i*(2/nbins), -1 + (i+1)*(2/nbins))`. -/
noncomputable def binIndex (nbins : ℕ) (v : ℝ) : Option ℕ :=
  if v < -1 ∨ 1 < v then none
  else if v = 1 then some (nbins - 1)
  else some (Int.toNat ⌊(v + 1) * nbins / 2⌋)

/-- `np.histogram2d(xs, ys, bins=nbins, range=[[-1,1],[-1,1]])` as the
counting function of its bin matrix: entry `(i, j)` counts the samples
whose first coordinate falls in x-bin `i` and second in y-bin `j`. -/
noncomputable def histogram2d (xs ys : List ℝ) (nbins : ℕ) : ℕ → ℕ → ℕ :=
  fun i j =>
    ((xs.zip ys).filter fun s =>
      decide (binIndex nbins s.1 = some i ∧ binIndex nbins s.2 = some j)).length

/-- The masked particle list of `calc_velocity_distribution`
(the boolean-mask indexing `ux[mask]` etc. keeps exactly these). -/
noncomputable def vdist_kept (v0 : V0) (ptl : List Particle) (pic : PicInfo)
    (c : Corners) : List Particle :=
  ptl.filter fun p =>
    decide (in_box c (particle_position v0 pic.mime p).1
      (particle_position v0 pic.mime p).2.1 (particle_position v0 pic.mime p).2.2)

/-- `calc_velocity_distribution(v0, pheader, ptl, pic_info, corners,
nbins)`: the three 2D histograms `(uy, ux)`, `(uz, ux)`, `(uz, uy)` of
the masked particles (the returned bin edges are a function of `nbins`
alone and are omitted; `pheader` is unused by the source body). -/
noncomputable def calc_velocity_distribution (v0 : V0) (ptl : List Particle)
    (pic : PicInfo) (c : Corners) (nbins : ℕ) :
    (ℕ → ℕ → ℕ) × (ℕ → ℕ → ℕ) × (ℕ → ℕ → ℕ) :=
  let kept := vdist_kept v0 ptl pic c
  let ux_d := kept.map (·.ux)
  let uy_d := kept.map (·.uy)
  let uz_d := kept.map (·.uz)
  (histogram2d uy_d ux_d nbins, histogram2d uz_d ux_d nbins,
    histogram2d uz_d uy_d nbins)

/-- A trivial grid for the single-particle scenario: `nx = ny = nz = 0`
(so the ghost-inclusive dims are 2), origins 0, unit cell spacing. -/
def v0unit : V0 := ⟨0, 0, 0, 0, 0, 0, 1, 1, 1⟩

/-- The synthetic particle of the scenario: cell 0, relative position
`(1,1,1)` (reconstructing to the origin), `u = (0.5, 0.5, 0.5)`. -/
def p_half : Particle := ⟨1, 1, 1, 0, 0.5, 0.5, 0.5, 1⟩

/-- A mask box containing the origin. -/
def box_unit : Corners := ⟨-1, 1, -1, 1, -1, 1⟩

/-- A simulation descriptor with mass ratio 1 for the scenario. -/
def pic_unit : PicInfo := ⟨0, 0, 0, 0, 1⟩

end EnergyConversionPIC

namespace EnergyConversionPIC

/-- The scenario particle reconstructs to the origin
(`0 + ((0 - 1) + (1 + 1)*0.5) * 1 = 0` on each axis, divided by
`sqrt(1) = 1`). -/
lemma particle_position_p_half :
    particle_position v0unit pic_unit.mime p_half = (0, 0, 0) := by
  simp only [particle_position, v0unit, p_half, pic_unit]
  norm_num [Real.sqrt_one]

/-- The scenario mask keeps the single particle. -/
lemma vdist_kept_p_half :
    vdist_kept v0unit [p_half] pic_unit box_unit = [p_half] := by
  rw [vdist_kept]
  simp only [List.filter_cons, List.filter_nil]
  have hmask : in_box box_unit (particle_position v0unit pic_unit.mime p_half).1
      (particle_position v0unit pic_unit.mime p_half).2.1
      (particle_position v0unit pic_unit.mime p_half).2.2 := by
    rw [particle_position_p_half]
    simp only [in_box, box_unit]
    norm_num
  rw [decide_eq_true hmask]
  rfl

/-- The value `0.5` falls in bin 48 of the 64-bin histogram over
`[-1, 1]`: `floor((0.5 + 1) / (2/64)) = floor(48) = 48`. -/
lemma binIndex_half : binIndex 64 (0.5 : ℝ) = some 48 := by
  rw [binIndex]
  rw [if_neg (by norm_num), if_neg (by norm_num)]
  have h48 : ((0.5 : ℝ) + 1) * (64 : ℕ) / 2 = ((48 : ℤ) : ℝ) := by norm_num
  rw [h48, Int.floor_intCast]
  rfl

/-- A one-sample histogram has a single count of 1 at the sample's bin
pair and 0 elsewhere. -/
lemma histogram2d_single (i j : ℕ) :
    histogram2d [(0.5 : ℝ)] [(0.5 : ℝ)] 64 i j =
      if i = 48 ∧ j = 48 then 1 else 0 := by
  rw [histogram2d]
  simp only [List.zip_cons_cons, List.zip_nil_right, List.filter_cons,
    List.filter_nil]
  by_cases h : i = 48 ∧ j = 48
  · obtain ⟨rfl, rfl⟩ := h
    have hc : binIndex 64 (0.5 : ℝ) = some 48 ∧ binIndex 64 (0.5 : ℝ) = some 48 :=
      ⟨binIndex_half, binIndex_half⟩
    rw [decide_eq_true hc]
    simp
  · have hnc : ¬(binIndex 64 (0.5 : ℝ) = some i ∧ binIndex 64 (0.5 : ℝ) = some j) := by
      intro hc
      obtain ⟨h1, h2⟩ := hc
      rw [binIndex_half] at h1 h2
      exact h ⟨(Option.some.inj h1).symm, (Option.some.inj h2).symm⟩
    rw [if_neg h, decide_eq_false hnc]
    rfl

/-- C6: `calc_velocity_distribution` keeps a particle iff each of its
reconstructed coordinates lies within the corresponding inclusive
`[min, max]` range of the corners (both boundary values included); and
the 64×64 histograms built from the single particle with
`u = (0.5, 0.5, 0.5)` whose position passes the mask each contain
exactly one count of 1, in bin `(48, 48)` — the bin containing
`(0.5, 0.5)` — and 0 in every other bin. -/
theorem calc_velocity_distribution_mask_and_single_particle :
    (∀ (v0 : V0) (ptl : List Particle) (pic : PicInfo) (c : Corners)
        (p : Particle),
      p ∈ vdist_kept v0 ptl pic c ↔
        p ∈ ptl ∧
          (particle_position v0 pic.mime p).1 ≥ c.xs ∧
          (particle_position v0 pic.mime p).1 ≤ c.xe ∧
          (particle_position v0 pic.mime p).2.1 ≥ c.ys ∧
          (particle_position v0 pic.mime p).2.1 ≤ c.ye ∧
          (particle_position v0 pic.mime p).2.2 ≥ c.zs ∧
          (particle_position v0 pic.mime p).2.2 ≤ c.ze) ∧
    (∀ i j : ℕ,
      ((calc_velocity_distribution v0unit [p_half] pic_unit box_unit 64).1 i j =
        if i = 48 ∧ j = 48 then 1 else 0) ∧
      ((calc_velocity_distribution v0unit [p_half] pic_unit box_unit 64).2.1 i j =
        if i = 48 ∧ j = 48 then 1 else 0) ∧
      ((calc_velocity_distribution v0unit [p_half] pic_unit box_unit 64).2.2 i j =
        if i = 48 ∧ j = 48 then 1 else 0)) := by
  constructor
  · intro v0 ptl pic c p
    rw [vdist_kept, List.mem_filter, decide_eq_true_eq, in_box]
  · have hcalc : calc_velocity_distribution v0unit [p_half] pic_unit box_unit 64 =
        (histogram2d [(0.5 : ℝ)] [(0.5 : ℝ)] 64,
          histogram2d [(0.5 : ℝ)] [(0.5 : ℝ)] 64,
          histogram2d [(0.5 : ℝ)] [(0.5 : ℝ)] 64) := by
      rw [calc_velocity_distribution, vdist_kept_p_half]
      rfl
    intro i j
    rw [hcalc]
    exact ⟨histogram2d_single i j, histogram2d_single i j, histogram2d_single i j⟩

end EnergyConversionPIC
